import Mathlib

/-!
Shallow embedding of the `simple-dns-server` Go repository
(`internal/dns/{types,parser,records,server}.go` and
`cmd/dns-server/main.go`), used to check the natural-language
specification against the code.

Conventions of the embedding:
* Go `[]byte` / `string` values are `List Nat` of byte values
  (Go strings are raw byte sequences; `'.'` is byte 46).
* Go `uint16`/`uint32` fields are `Nat`; where the code can overflow
  (the `ANCount++` increment) the embedding takes the value `% 2 ^ 16`
  explicitly.  `uint16(hi)<<8 | uint16(lo)` on two bytes is embedded as
  `hi * 256 + lo`, exact because both operands are bytes (`< 256`).
* Fallible Go returns `(..., error)` become `Except DnsError ...`; the
  distinct `fmt.Errorf` messages of the source become the constructors
  of `DnsError`.
* `parseDomainName` in the source recurses on compression pointers with
  no bound; the embedding threads a `fuel` counter spent once per loop
  step or pointer hop, and returns `none` when the bound is hit.  A run
  of the Go code that terminates corresponds to `some` at every
  sufficiently large fuel; an input on which the model is `none` for
  every fuel is one on which the Go code recurses without bound.
-/

deriving instance DecidableEq for Except

/-- DNS record-type and class constants from `internal/dns/types.go`. -/
def TYPE_A : Nat := 1

def TYPE_NS : Nat := 2

def TYPE_CNAME : Nat := 5

def TYPE_AAAA : Nat := 28

def CLASS_IN : Nat := 1

def MIN_MESSAGE_SIZE : Nat := 12

def DEFAULT_TTL : Nat := 300

/-- Byte sequence of an ASCII string literal (Go strings are byte
sequences; all literals in the repository are ASCII). -/
def strBytes (s : String) : List Nat := s.data.map Char.toNat

/-- `DNSHeader` from `internal/dns/types.go`: six 16-bit fields. -/
structure DNSHeader where
  ID : Nat
  Flags : Nat
  QDCount : Nat
  ANCount : Nat
  NSCount : Nat
  ARCount : Nat
  deriving DecidableEq

/-- `DNSQuestion` from `internal/dns/types.go`.  The Go fields `Type`
and `Class` are named `qtype`/`qclass` because `Type` is reserved in
Lean. -/
structure DNSQuestion where
  Name : List Nat
  qtype : Nat
  qclass : Nat
  deriving DecidableEq

/-- `DNSResourceRecord` from `internal/dns/types.go` (`Type`/`Class`
renamed `rtype`/`rclass`). -/
structure DNSResourceRecord where
  Name : List Nat
  rtype : Nat
  rclass : Nat
  TTL : Nat
  Data : List Nat
  deriving DecidableEq

/-- `DNSMessage` from `internal/dns/types.go`. -/
structure DNSMessage where
  Header : DNSHeader
  Questions : List DNSQuestion
  Answers : List DNSResourceRecord
  deriving DecidableEq

/-- Decode-error taxonomy: one constructor per distinct `fmt.Errorf`
in `internal/dns/parser.go`. -/
inductive DnsError where
  /-- "message too short: %d bytes, minimum %d required" -/
  | tooShort
  /-- "unexpected end of data" -/
  | unexpectedEnd
  /-- "invalid compression pointer" -/
  | invalidPointer
  /-- "label extends beyond data" -/
  | labelOverrun
  /-- "not enough data for question type and class" -/
  | truncatedQuestion
  deriving DecidableEq

/-- `uint16(data[i])<<8 | uint16(data[i+1])` — exact on bytes. -/
def readU16 (data : List Nat) (i : Nat) : Nat :=
  data.getD i 0 * 256 + data.getD (i + 1) 0

/--
The label-collecting loop of `parseDomainName` (`internal/dns/parser.go`,
`func parseDomainName`), returning the list of labels read from `offset`
and the final offset.  The source's terminal steps:
* offset past the end: error "unexpected end of data";
* zero length byte: the name ends, consuming the byte;
* a byte whose top two bits are `11`: a compression pointer — the source
  calls `parseDomainName(data, pointer)` recursively (uncounted; the
  embedding spends one unit of fuel) and splices
  `strings.Split(name, ".")` onto the labels, then stops after the two
  pointer bytes;
* otherwise a literal label of `len` bytes is copied and the loop
  continues at `offset + len + 1`.
-/
def parseLabels (data : List Nat) : Nat → Nat →
    Option (Except DnsError (List (List Nat) × Nat))
  | 0, _ => none
  | fuel + 1, offset =>
    if data.length ≤ offset then some (.error .unexpectedEnd)
    else
      let len := data.getD offset 0
      if len = 0 then some (.ok ([], offset + 1))
      else if len &&& 0xC0 = 0xC0 then
        if data.length ≤ offset + 1 then some (.error .invalidPointer)
        else
          let ptr := (len &&& 0x3F) * 256 + data.getD (offset + 1) 0
          match parseLabels data fuel ptr with
          | none => none
          | some (.error e) => some (.error e)
          | some (.ok (inner, _)) =>
            let name := if inner = [] then [46] else List.intercalate [46] inner
            some (.ok (name.splitOn 46, offset + 2))
      else
        if data.length < offset + len + 1 then some (.error .labelOverrun)
        else
          match parseLabels data fuel (offset + len + 1) with
          | none => none
          | some (.error e) => some (.error e)
          | some (.ok (rest, fin)) =>
            some (.ok ((data.drop (offset + 1)).take len :: rest, fin))

/-- `parseDomainName` (`internal/dns/parser.go`): the loop above
followed by the source's final join — zero labels render as the root
name `"."`, otherwise `strings.Join(labels, ".")`. -/
def parseDomainName (fuel : Nat) (data : List Nat) (offset : Nat) :
    Option (Except DnsError (List Nat × Nat)) :=
  match parseLabels data fuel offset with
  | none => none
  | some (.error e) => some (.error e)
  | some (.ok (labels, fin)) =>
    some (.ok (if labels = [] then [46] else List.intercalate [46] labels, fin))

/-- `parseQuestions` (`internal/dns/parser.go`): one question = a name
followed by 16-bit type and class; errors when fewer than 4 bytes
remain after the name. -/
def parseQuestions (fuel : Nat) (data : List Nat) (offset : Nat) :
    Option (Except DnsError (DNSQuestion × Nat)) :=
  match parseDomainName fuel data offset with
  | none => none
  | some (.error e) => some (.error e)
  | some (.ok (name, newOffset)) =>
    if data.length < newOffset + 4 then some (.error .truncatedQuestion)
    else
      some (.ok
        ({ Name := name
           qtype := readU16 data newOffset
           qclass := readU16 data (newOffset + 2) }, newOffset + 4))

/-- The `for range QDCount` loop of `ParseDNSMessage`, collecting
`count` questions starting at `offset`. -/
def parseQuestionLoop (fuel : Nat) (data : List Nat) :
    Nat → Nat → Option (Except DnsError (List DNSQuestion × Nat))
  | 0, offset => some (.ok ([], offset))
  | count + 1, offset =>
    match parseQuestions fuel data offset with
    | none => none
    | some (.error e) => some (.error e)
    | some (.ok (q, newOffset)) =>
      match parseQuestionLoop fuel data count newOffset with
      | none => none
      | some (.error e) => some (.error e)
      | some (.ok (qs, fin)) => some (.ok (q :: qs, fin))

/-- `ParseDNSMessage` (`internal/dns/parser.go`): reject buffers under
12 bytes, read the six big-endian header fields at fixed offsets, then
read exactly `QDCount` questions from offset 12.  Answer, authority and
additional sections are never parsed (`Answers` stays `[]`). -/
def ParseDNSMessage (fuel : Nat) (data : List Nat) :
    Option (Except DnsError DNSMessage) :=
  if data.length < MIN_MESSAGE_SIZE then some (.error .tooShort)
  else
    let hdr : DNSHeader :=
      { ID := readU16 data 0
        Flags := readU16 data 2
        QDCount := readU16 data 4
        ANCount := readU16 data 6
        NSCount := readU16 data 8
        ARCount := readU16 data 10 }
    match parseQuestionLoop fuel data hdr.QDCount 12 with
    | none => none
    | some (.error e) => some (.error e)
    | some (.ok (qs, _)) =>
      some (.ok { Header := hdr, Questions := qs, Answers := [] })

/-- `EncodeDomainName` (`cmd/dns-server/main.go`): empty name is the
single zero byte; otherwise split on `'.'`, drop (with a warning) every
label longer than 63 bytes, emit each kept label as a length byte
followed by its bytes, and terminate with a zero byte. -/
def EncodeDomainName (name : List Nat) : List Nat :=
  if name = [] then [0]
  else
    ((name.splitOn 46).map fun label =>
      if label.length > 63 then [] else label.length :: label).flatten ++ [0]

/-- Big-endian byte pair of a `uint16` value (`byte(x>>8), byte(x)`). -/
def u16bytes (n : Nat) : List Nat := [n / 256 % 256, n % 256]

/-- Big-endian bytes of a `uint32` value. -/
def u32bytes (n : Nat) : List Nat :=
  [n / 2 ^ 24 % 256, n / 2 ^ 16 % 256, n / 256 % 256, n % 256]

/-- Wire bytes of one question in `EncodeDNSMessage`. -/
def encodeQuestion (q : DNSQuestion) : List Nat :=
  EncodeDomainName q.Name ++ u16bytes q.qtype ++ u16bytes q.qclass

/-- Wire bytes of one answer record in `EncodeDNSMessage`: name, type,
class, 32-bit TTL, 16-bit data length, data. -/
def encodeAnswer (a : DNSResourceRecord) : List Nat :=
  EncodeDomainName a.Name ++ u16bytes a.rtype ++ u16bytes a.rclass ++
    u32bytes a.TTL ++ u16bytes a.Data.length ++ a.Data

/-- `EncodeDNSMessage` (`cmd/dns-server/main.go`): six big-endian
header fields, then the questions, then the answer records. -/
def EncodeDNSMessage (msg : DNSMessage) : List Nat :=
  u16bytes msg.Header.ID ++ u16bytes msg.Header.Flags ++
    u16bytes msg.Header.QDCount ++ u16bytes msg.Header.ANCount ++
    u16bytes msg.Header.NSCount ++ u16bytes msg.Header.ARCount ++
    (msg.Questions.map encodeQuestion).flatten ++
    (msg.Answers.map encodeAnswer).flatten

/-- Association-list find, embedding Go map lookup. -/
def assocFind {κ α : Type} [DecidableEq κ] (k : κ) :
    List (κ × α) → Option α
  | [] => none
  | (k', v) :: t => if k' = k then some v else assocFind k t

/-- Association-list insert/replace, embedding Go map assignment. -/
def assocSet {κ α : Type} [DecidableEq κ] (k : κ) (v : α) :
    List (κ × α) → List (κ × α)
  | [] => [(k, v)]
  | (k', v') :: t => if k' = k then (k, v) :: t else (k', v') :: assocSet k v t

/-- `RecordStore` (`internal/dns/records.go`):
`map[string]map[uint16][]byte` as a nested association list. -/
abbrev RecordStore : Type := List (List Nat × List (Nat × List Nat))

/-- `NewRecordStore` (`internal/dns/records.go`): the seeded table. -/
def NewRecordStore : RecordStore :=
  [(strBytes "www.example.com", [(TYPE_A, [192, 168, 1, 1])]),
   (strBytes "example.com", [(TYPE_A, [192, 168, 1, 1])]),
   (strBytes "test.com", [(TYPE_A, [10, 0, 0, 1])]),
   (strBytes "localhost", [(TYPE_A, [127, 0, 0, 1])]),
   (strBytes "google.com", [(TYPE_A, [8, 8, 8, 8])])]

/-- `LookupRecord` (`internal/dns/records.go`): exact-key lookup of
domain, then of record type. -/
def LookupRecord (rs : RecordStore) (domain : List Nat) (recordType : Nat) :
    Option (List Nat) :=
  match assocFind domain rs with
  | none => none
  | some domainRecords => assocFind recordType domainRecords

/-- `AddRecord` (`internal/dns/records.go`): create the inner map if
missing, then set `records[domain][recordType] = data`.  The domain key
is stored verbatim — no case normalisation. -/
def AddRecord (rs : RecordStore) (domain : List Nat) (recordType : Nat)
    (data : List Nat) : RecordStore :=
  assocSet domain (assocSet recordType data ((assocFind domain rs).getD [])) rs

/-- `strings.ToLower` restricted to ASCII bytes (every byte of the
repository's domain strings is ASCII): map `'A'..'Z'` to `'a'..'z'`. -/
def toLowerBytes (s : List Nat) : List Nat :=
  s.map fun b => if 65 ≤ b ∧ b ≤ 90 then b + 32 else b

/-- `createDNSResponse` (`internal/dns/server.go`): echo id and
questions, base flags `0x8180`, look up each type-A/class-IN question
under the lowercased name, append an answer (original casing, fixed
TTL) and increment the 16-bit `ANCount` on a hit; finally OR `0x0003`
into the flags when no answer was produced.  `responseStep` is the body
of the source's `for _, question := range query.Questions` loop. -/
def responseStep (rs : RecordStore) (response : DNSMessage)
    (question : DNSQuestion) : DNSMessage :=
  if question.qtype = TYPE_A ∧ question.qclass = CLASS_IN then
    match LookupRecord rs (toLowerBytes question.Name) TYPE_A with
    | some ipData =>
      { response with
        Answers := response.Answers ++
          [{ Name := question.Name
             rtype := TYPE_A
             rclass := CLASS_IN
             TTL := DEFAULT_TTL
             Data := ipData }]
        Header :=
          { response.Header with
            ANCount := (response.Header.ANCount + 1) % 2 ^ 16 } }
    | none => response
  else response

/-- The response value `createDNSResponse` starts from: query id and
questions echoed, base flags `0x8180`, all other counts zero. -/
def baseResponse (query : DNSMessage) : DNSMessage :=
  { Header :=
      { ID := query.Header.ID
        Flags := 0x8180
        QDCount := query.Header.QDCount
        ANCount := 0
        NSCount := 0
        ARCount := 0 }
    Questions := query.Questions
    Answers := [] }

/-- `createDNSResponse` (`internal/dns/server.go`): the base response,
the per-question loop, and the final NXDOMAIN flag adjustment. -/
def createDNSResponse (rs : RecordStore) (query : DNSMessage) : DNSMessage :=
  let response := query.Questions.foldl (responseStep rs) (baseResponse query)
  if response.Header.ANCount = 0 then
    { response with
      Header := { response.Header with
                  Flags := response.Header.Flags ||| 0x0003 } }
  else response

/-- Wire bytes of a list of labels: each label emitted as its length
byte followed by its bytes. -/
def labelBlocks (ls : List (List Nat)) : List Nat :=
  (ls.map fun l => l.length :: l).flatten

/-- A well-formed wire name: every `'.'`-separated label has between 1
and 63 bytes (so the name is nonempty, has no empty labels, and no
label is dropped by the encoder). -/
def wellFormedName (name : List Nat) : Prop :=
  ∀ l ∈ name.splitOn 46, 1 ≤ l.length ∧ l.length ≤ 63

instance (name : List Nat) : Decidable (wellFormedName name) :=
  inferInstanceAs (Decidable (∀ l ∈ name.splitOn 46, 1 ≤ l.length ∧ l.length ≤ 63))

/-- Messages constructible through the public Go API: every numeric
field fits its declared Go integer type, the header counts match the
lists (the spec's data-model invariant), and every name is well
formed. -/
def wellFormedMessage (m : DNSMessage) : Prop :=
  m.Header.ID < 2 ^ 16 ∧ m.Header.Flags < 2 ^ 16 ∧
  m.Header.QDCount = m.Questions.length ∧
  m.Header.ANCount = m.Answers.length ∧
  m.Header.NSCount < 2 ^ 16 ∧ m.Header.ARCount < 2 ^ 16 ∧
  m.Questions.length < 2 ^ 16 ∧ m.Answers.length < 2 ^ 16 ∧
  (∀ q ∈ m.Questions,
    wellFormedName q.Name ∧ q.qtype < 2 ^ 16 ∧ q.qclass < 2 ^ 16) ∧
  (∀ a ∈ m.Answers,
    wellFormedName a.Name ∧ a.rtype < 2 ^ 16 ∧ a.rclass < 2 ^ 16 ∧
      a.TTL < 2 ^ 32 ∧ a.Data.length < 2 ^ 16)

instance (m : DNSMessage) : Decidable (wellFormedMessage m) :=
  inferInstanceAs (Decidable (_ ∧ _))

/-- A 14-byte datagram: a valid 12-byte header with `QDCount = 1`,
followed at offset 12 by the compression pointer bytes `C0 0C`, whose
14-bit target is offset 12 — the pointer targets itself. -/
def selfPointerBuf : List Nat :=
  [0x12, 0x34, 0, 0, 0, 1, 0, 0, 0, 0, 0, 0, 0xC0, 12]

/-- The Scenario A question: `("www.example.com", type 1, class 1)`. -/
def questionA : DNSQuestion :=
  { Name := strBytes "www.example.com", qtype := 1, qclass := 1 }

/-- The Scenario A query message. -/
def queryA : DNSMessage :=
  { Header :=
      { ID := 0x1234, Flags := 0x0100, QDCount := 1
        ANCount := 0, NSCount := 0, ARCount := 0 }
    Questions := [questionA]
    Answers := [] }

/-- The response Scenario A expects. -/
def responseA : DNSMessage :=
  { Header :=
      { ID := 0x1234, Flags := 0x8180, QDCount := 1
        ANCount := 1, NSCount := 0, ARCount := 0 }
    Questions := [questionA]
    Answers :=
      [{ Name := strBytes "www.example.com", rtype := 1, rclass := 1
         TTL := 300, Data := [192, 168, 1, 1] }] }

/-- A query whose only question has the unsupported type 28 (AAAA) for
a name that the seeded table does hold under the supported type. -/
def queryAAAA : DNSMessage :=
  { Header :=
      { ID := 0x1234, Flags := 0x0100, QDCount := 1
        ANCount := 0, NSCount := 0, ARCount := 0 }
    Questions := [{ Name := strBytes "www.example.com", qtype := 28, qclass := 1 }]
    Answers := [] }

/-- A well-formed message with one answer record, used against the
round-trip claim. -/
def msgEx : DNSMessage :=
  { Header :=
      { ID := 1, Flags := 0x8180, QDCount := 0
        ANCount := 1, NSCount := 0, ARCount := 0 }
    Questions := []
    Answers :=
      [{ Name := strBytes "www.example.com", rtype := 1, rclass := 1
         TTL := 300, Data := [192, 168, 1, 1] }] }

/-- What `msgEx` decodes back to: same header, no questions, and — the
asymmetry — an empty answer list. -/
def decEx : DNSMessage :=
  { Header := msgEx.Header, Questions := [], Answers := [] }

/-- C4: for the query `{id=0x1234, flags=0x0100, qdcount=1}` with the
single question `("www.example.com", type 1, class 1)`, applied to the
seeded record table (which maps `www.example.com` to `192.168.1.1`),
`createDNSResponse` returns `{id=0x1234, flags=0x8180, ancount=1}` with
the question echoed verbatim and the single answer
`("www.example.com", type 1, class 1, ttl 300, data [192,168,1,1])`. -/
theorem scenarioA_response :
    createDNSResponse NewRecordStore queryA = responseA := by decide

/-- C10: decoding the single wire byte `0x00` yields the root name
`"."` (byte 46), but encoding `"."` produces `[0, 0, 0]`, not the
single zero byte, so encode does not invert decode on the root name;
moreover any name with an empty label (here `"a..b"`) emits a premature
zero length byte, and a decoder stops there — parsing the 6-byte
encoding of `"a..b"` returns just `"a"` after 3 bytes. -/
theorem root_name_asymmetry :
    parseDomainName 1 [0] 0 = some (.ok ([46], 1)) ∧
    EncodeDomainName [46] = [0, 0, 0] ∧
    EncodeDomainName [46] ≠ [0] ∧
    parseDomainName 20 (EncodeDomainName [46]) 0 = some (.ok ([46], 1)) ∧
    EncodeDomainName (strBytes "a..b") = [1, 97, 0, 1, 98, 0] ∧
    parseDomainName 20 (EncodeDomainName (strBytes "a..b")) 0 =
      some (.ok (strBytes "a", 3)) := by decide

/-- C2 (counterexample): `msgEx` is well formed, constructible through
the public builder, and has one answer record; decoding its encoding
yields the message with the same header and questions but an empty
answer list — decode does not reproduce the answer list. -/
theorem roundtrip_loses_answers :
    wellFormedMessage msgEx ∧
    ParseDNSMessage 0 (EncodeDNSMessage msgEx) = some (.ok decEx) ∧
    decEx.Answers ≠ msgEx.Answers ∧
    decEx ≠ msgEx := by decide

/-- C1: on the crafted datagram `selfPointerBuf`, whose question name
is a compression pointer targeting its own offset, the source's
`parseDomainName` recursion never terminates: the fuelled embedding
returns the out-of-fuel marker `none` at offset 12 for every fuel
bound, and consequently `ParseDNSMessage` also fails to terminate for
every bound — the code neither returns a name nor an
`InvalidPointer`-style error on this input. -/
theorem self_pointer_never_terminates :
    (∀ fuel, parseDomainName fuel selfPointerBuf 12 = none) ∧
    (∀ fuel, ParseDNSMessage fuel selfPointerBuf = none) := by
  have key : ∀ fuel, parseLabels selfPointerBuf fuel 12 = none := by
    intro fuel
    induction fuel with
    | zero => rfl
    | succ n ih =>
      simp only [selfPointerBuf] at ih
      simp [parseLabels, selfPointerBuf,
        show ((192 : Nat) &&& 63) * 256 + 12 = 12 from by decide, ih]
  have keyName : ∀ fuel, parseDomainName fuel selfPointerBuf 12 = none := by
    intro fuel
    unfold parseDomainName
    rw [key fuel]
  refine ⟨keyName, fun fuel => ?_⟩
  have hq : parseQuestions fuel selfPointerBuf 12 = none := by
    unfold parseQuestions
    rw [keyName fuel]
  unfold ParseDNSMessage
  rw [if_neg (by decide)]
  have hcount : readU16 selfPointerBuf 4 = 1 := by decide
  simp only [hcount]
  unfold parseQuestionLoop
  rw [hq]

/-- C6: decode fails with the too-short error on every buffer under 12
bytes; a question whose name parses but with fewer than 4 bytes left
for type and class fails with the truncated-question error; and a label
whose declared length exceeds the bytes remaining fails with the
label-overrun error. -/
theorem truncation_errors :
    (∀ fuel data, data.length < 12 →
      ParseDNSMessage fuel data = some (.error .tooShort)) ∧
    (∀ fuel data offset name newOffset,
      parseDomainName fuel data offset = some (.ok (name, newOffset)) →
      data.length < newOffset + 4 →
      parseQuestions fuel data offset = some (.error .truncatedQuestion)) ∧
    (∀ fuel data offset,
      offset < data.length →
      data.getD offset 0 ≠ 0 →
      data.getD offset 0 &&& 0xC0 ≠ 0xC0 →
      data.length < offset + data.getD offset 0 + 1 →
      parseDomainName (fuel + 1) data offset = some (.error .labelOverrun)) := by
  refine ⟨fun fuel data h => ?_, fun fuel data offset name newOffset hname hlen => ?_,
    fun fuel data offset hoff hz hptr hover => ?_⟩
  · unfold ParseDNSMessage MIN_MESSAGE_SIZE
    rw [if_pos h]
  · unfold parseQuestions
    simp only [hname]
    rw [if_pos hlen]
  · unfold parseDomainName parseLabels
    rw [if_neg (by omega)]
    simp only [if_neg hz, if_neg hptr, if_pos hover]

theorem truncation_errors_witness :
    ParseDNSMessage 0 [] = some (.error .tooShort) ∧
    parseQuestions 5 [0, 0, 0, 0] 0 = some (.error .truncatedQuestion) ∧
    parseDomainName 5 [3, 97] 0 = some (.error .labelOverrun) :=
  ⟨truncation_errors.1 0 [] (by decide),
   truncation_errors.2.1 5 [0, 0, 0, 0] 0 [46] 1 (by decide) (by decide),
   truncation_errors.2.2 4 [3, 97] 0 (by decide) (by decide) (by decide) (by decide)⟩

/-- One step of the response loop keeps `ANCount` equal to the number
of answers, appends at most one answer, and changes no other field. -/
theorem responseStep_props (rs : RecordStore) (resp : DNSMessage)
    (q : DNSQuestion) (h1 : resp.Header.ANCount = resp.Answers.length)
    (h2 : resp.Answers.length ≤ 65534) :
    (responseStep rs resp q).Header.ANCount =
      (responseStep rs resp q).Answers.length ∧
    (responseStep rs resp q).Answers.length ≤ resp.Answers.length + 1 ∧
    resp.Answers.length ≤ (responseStep rs resp q).Answers.length ∧
    (responseStep rs resp q).Header.Flags = resp.Header.Flags ∧
    (responseStep rs resp q).Header.ID = resp.Header.ID ∧
    (responseStep rs resp q).Header.QDCount = resp.Header.QDCount ∧
    (responseStep rs resp q).Header.NSCount = resp.Header.NSCount ∧
    (responseStep rs resp q).Header.ARCount = resp.Header.ARCount ∧
    (responseStep rs resp q).Questions = resp.Questions := by
  unfold responseStep
  by_cases hc : q.qtype = TYPE_A ∧ q.qclass = CLASS_IN
  · rw [if_pos hc]
    cases hl : LookupRecord rs (toLowerBytes q.Name) TYPE_A with
    | none => exact ⟨h1, Nat.le_succ _, Nat.le_refl _, rfl, rfl, rfl, rfl, rfl, rfl⟩
    | some ip =>
      refine ⟨?_, by simp, by simp, rfl, rfl, rfl, rfl, rfl, rfl⟩
      show (resp.Header.ANCount + 1) % 2 ^ 16 = (resp.Answers ++ [_]).length
      rw [h1, List.length_append]
      simp only [List.length_singleton]
      omega
  · rw [if_neg hc]
    exact ⟨h1, by omega, by omega, rfl, rfl, rfl, rfl, rfl, rfl⟩

/-- The response loop keeps `ANCount` equal to the number of answers
(given room in 16 bits), adds at most one answer per question, and
leaves every other header field and the question list unchanged. -/
theorem foldl_responseStep_props (rs : RecordStore) (qs : List DNSQuestion) :
    ∀ resp : DNSMessage,
      resp.Header.ANCount = resp.Answers.length →
      resp.Answers.length + qs.length ≤ 65535 →
      (qs.foldl (responseStep rs) resp).Header.ANCount =
        (qs.foldl (responseStep rs) resp).Answers.length ∧
      (qs.foldl (responseStep rs) resp).Answers.length ≤
        resp.Answers.length + qs.length ∧
      resp.Answers.length ≤ (qs.foldl (responseStep rs) resp).Answers.length ∧
      (qs.foldl (responseStep rs) resp).Header.Flags = resp.Header.Flags ∧
      (qs.foldl (responseStep rs) resp).Header.ID = resp.Header.ID ∧
      (qs.foldl (responseStep rs) resp).Header.QDCount = resp.Header.QDCount ∧
      (qs.foldl (responseStep rs) resp).Header.NSCount = resp.Header.NSCount ∧
      (qs.foldl (responseStep rs) resp).Header.ARCount = resp.Header.ARCount ∧
      (qs.foldl (responseStep rs) resp).Questions = resp.Questions := by
  induction qs with
  | nil =>
    intro resp h1 _
    simp only [List.foldl_nil, List.length_nil]
    refine ⟨h1, by omega, Nat.le_refl _, ?_, ?_, ?_, ?_, ?_, ?_⟩ <;> trivial
  | cons q qs ih =>
    intro resp h1 h2
    simp only [List.foldl_cons, List.length_cons] at h2 ⊢
    obtain ⟨s1, s2, s3, s4, s5, s6, s7, s8, s9⟩ :=
      responseStep_props rs resp q h1 (by omega)
    obtain ⟨t1, t2, t3, t4, t5, t6, t7, t8, t9⟩ :=
      ih (responseStep rs resp q) s1 (by omega)
    exact ⟨t1, by omega, by omega, t4.trans s4, t5.trans s5, t6.trans s6,
      t7.trans s7, t8.trans s8, t9.trans s9⟩

/-- C3: for every query (with fewer than `2^16` questions, as any
parsed query has), the response's `ANCount` equals the number of answer
records produced; when zero answers were produced the flags are exactly
`0x8183` (low two bits `0x0003`), and when at least one answer was
produced the flags stay at the base value `0x8180` (low two bits
zero). -/
theorem nxdomain_policy (rs : RecordStore) (query : DNSMessage)
    (h : query.Questions.length < 2 ^ 16) :
    (createDNSResponse rs query).Header.ANCount =
      (createDNSResponse rs query).Answers.length ∧
    ((createDNSResponse rs query).Answers.length = 0 →
      (createDNSResponse rs query).Header.Flags = 0x8183 ∧
      (createDNSResponse rs query).Header.Flags &&& 3 = 3) ∧
    ((createDNSResponse rs query).Answers.length ≠ 0 →
      (createDNSResponse rs query).Header.Flags = 0x8180 ∧
      (createDNSResponse rs query).Header.Flags &&& 3 = 0) := by
  obtain ⟨t1, t2, t3, t4, t5, t6, t7, t8, t9⟩ :=
    foldl_responseStep_props rs query.Questions (baseResponse query) rfl
      (by simp only [baseResponse, List.length_nil]; omega)
  have hbase : (baseResponse query).Header.Flags = 0x8180 := rfl
  simp only [createDNSResponse]
  by_cases hAN :
      (query.Questions.foldl (responseStep rs) (baseResponse query)).Header.ANCount = 0
  · rw [if_pos hAN]
    have hlen :
        (query.Questions.foldl (responseStep rs) (baseResponse query)).Answers.length
          = 0 := t1.symm.trans hAN
    refine ⟨hAN.trans hlen.symm, fun _ => ?_, fun hne => absurd hlen hne⟩
    constructor
    · show (query.Questions.foldl (responseStep rs) (baseResponse query)).Header.Flags
        ||| 3 = 0x8183
      rw [t4, hbase]
      decide
    · show ((query.Questions.foldl (responseStep rs) (baseResponse query)).Header.Flags
        ||| 3) &&& 3 = 3
      rw [t4, hbase]
      decide
  · rw [if_neg hAN]
    have hlen :
        (query.Questions.foldl (responseStep rs) (baseResponse query)).Answers.length
          ≠ 0 := fun hz => hAN (t1.trans hz)
    refine ⟨t1, fun hz => absurd hz hlen, fun _ => ⟨t4.trans hbase, ?_⟩⟩
    rw [t4, hbase]
    decide

theorem nxdomain_policy_witness :
    ((createDNSResponse NewRecordStore queryA).Header.Flags = 0x8180 ∧
      (createDNSResponse NewRecordStore queryA).Header.Flags &&& 3 = 0) ∧
    ((createDNSResponse NewRecordStore queryAAAA).Header.Flags = 0x8183 ∧
      (createDNSResponse NewRecordStore queryAAAA).Header.Flags &&& 3 = 3) :=
  ⟨(nxdomain_policy NewRecordStore queryA (by decide)).2.2 (by decide),
   (nxdomain_policy NewRecordStore queryAAAA (by decide)).2.1 (by decide)⟩

/-- When no question has the supported type and class, the response
loop never changes the accumulator (and in particular never looks at
the store). -/
theorem foldl_responseStep_unsupported (rs : RecordStore) :
    ∀ qs : List DNSQuestion,
      (∀ q ∈ qs, q.qtype ≠ TYPE_A ∨ q.qclass ≠ CLASS_IN) →
      ∀ resp, qs.foldl (responseStep rs) resp = resp := by
  intro qs
  induction qs with
  | nil => intro _ _; rfl
  | cons q qs ih =>
    intro h resp
    have hstep : responseStep rs resp q = resp := by
      unfold responseStep
      rw [if_neg]
      rintro ⟨ha, hb⟩
      rcases h q (List.mem_cons_self q qs) with h1 | h1
      · exact h1 ha
      · exact h1 hb
    rw [List.foldl_cons, hstep]
    exact ih (fun p hp => h p (List.mem_cons_of_mem _ hp)) resp

/-- C5: a query all of whose questions have an unsupported type or
class yields an empty answer list, `ANCount = 0`, and the NXDOMAIN flag
pattern; moreover the response is the same for every record store —
such questions never consult the table, even when the queried name has
a record stored under the supported type. -/
theorem unsupported_type_class (rs rs' : RecordStore) (query : DNSMessage)
    (h : ∀ q ∈ query.Questions, q.qtype ≠ TYPE_A ∨ q.qclass ≠ CLASS_IN) :
    (createDNSResponse rs query).Answers = [] ∧
    (createDNSResponse rs query).Header.ANCount = 0 ∧
    (createDNSResponse rs query).Header.Flags = 0x8183 ∧
    createDNSResponse rs query = createDNSResponse rs' query := by
  have e1 := foldl_responseStep_unsupported rs query.Questions h (baseResponse query)
  have e2 := foldl_responseStep_unsupported rs' query.Questions h (baseResponse query)
  simp only [createDNSResponse, e1, e2]
  have hz : (baseResponse query).Header.ANCount = 0 := rfl
  rw [if_pos hz]
  refine ⟨by trivial, by trivial, ?_, by trivial⟩
  show (baseResponse query).Header.Flags ||| 3 = 0x8183
  rw [show (baseResponse query).Header.Flags = 0x8180 from rfl]
  decide

theorem unsupported_type_class_witness :
    (createDNSResponse NewRecordStore queryAAAA).Answers = [] ∧
    (createDNSResponse NewRecordStore queryAAAA).Header.ANCount = 0 ∧
    (createDNSResponse NewRecordStore queryAAAA).Header.Flags = 0x8183 ∧
    createDNSResponse NewRecordStore queryAAAA =
      createDNSResponse ([] : RecordStore) queryAAAA :=
  unsupported_type_class NewRecordStore [] queryAAAA (by decide)

/-- `strings.ToLower` output never contains an ASCII uppercase byte. -/
theorem toLowerBytes_no_upper (s : List Nat) :
    ∀ b ∈ toLowerBytes s, ¬(65 ≤ b ∧ b ≤ 90) := by
  intro b hb
  simp only [toLowerBytes, List.mem_map] at hb
  obtain ⟨a, _, rfl⟩ := hb
  by_cases h : 65 ≤ a ∧ a ≤ 90
  · rw [if_pos h]
    omega
  · rw [if_neg h]
    omega

/-- Setting one key of an association list leaves every other key's
lookup unchanged. -/
theorem assocFind_assocSet_ne {κ α : Type} [DecidableEq κ]
    (k k' : κ) (v : α) (l : List (κ × α)) (h : k' ≠ k) :
    assocFind k' (assocSet k v l) = assocFind k' l := by
  induction l with
  | nil =>
    simp only [assocSet, assocFind]
    rw [if_neg (fun he => h he.symm)]
  | cons p t ih =>
    obtain ⟨k2, v2⟩ := p
    simp only [assocSet]
    by_cases h2 : k2 = k
    · rw [if_pos h2]
      simp only [assocFind]
      rw [if_neg (fun he => h he.symm), if_neg (fun he => h (h2 ▸ he).symm)]
    · rw [if_neg h2]
      simp only [assocFind]
      by_cases h3 : k2 = k'
      · rw [if_pos h3, if_pos h3]
      · rw [if_neg h3, if_neg h3]
        exact ih

/-- `AddRecord` under one domain key does not change lookups under any
other domain key. -/
theorem LookupRecord_AddRecord_ne (rs : RecordStore)
    (domain d2 : List Nat) (ty t : Nat) (dat : List Nat) (h : d2 ≠ domain) :
    LookupRecord (AddRecord rs domain ty dat) d2 t = LookupRecord rs d2 t := by
  unfold LookupRecord AddRecord
  rw [assocFind_assocSet_ne _ _ _ _ h]

/-- Two stores that agree on every lookup the loop performs produce the
same fold result. -/
theorem foldl_responseStep_congr (rs₁ rs₂ : RecordStore) :
    ∀ qs : List DNSQuestion,
      (∀ q ∈ qs, LookupRecord rs₁ (toLowerBytes q.Name) TYPE_A =
        LookupRecord rs₂ (toLowerBytes q.Name) TYPE_A) →
      ∀ resp, qs.foldl (responseStep rs₁) resp = qs.foldl (responseStep rs₂) resp := by
  intro qs
  induction qs with
  | nil => intro _ _; rfl
  | cons q qs ih =>
    intro h resp
    have hstep : responseStep rs₁ resp q = responseStep rs₂ resp q := by
      unfold responseStep
      rw [h q (List.mem_cons_self q qs)]
    rw [List.foldl_cons, List.foldl_cons, hstep]
    exact ih (fun p hp => h p (List.mem_cons_of_mem _ hp)) _

/-- C9: `AddRecord` stores the domain key verbatim while the response
builder lowercases every query name before `LookupRecord`; hence a
record added under a domain containing an ASCII uppercase letter never
changes any response — it is unreachable for every query of every
casing. -/
theorem uppercase_record_unreachable (rs : RecordStore) (domain : List Nat)
    (recordType : Nat) (d : List Nat) (query : DNSMessage)
    (h : ∃ b ∈ domain, 65 ≤ b ∧ b ≤ 90) :
    createDNSResponse (AddRecord rs domain recordType d) query =
      createDNSResponse rs query := by
  have hne : ∀ name : List Nat, toLowerBytes name ≠ domain := by
    intro name heq
    obtain ⟨b, hb, hup⟩ := h
    exact toLowerBytes_no_upper name b (heq ▸ hb) hup
  have hcongr := foldl_responseStep_congr (AddRecord rs domain recordType d) rs
    query.Questions
    (fun q _ => LookupRecord_AddRecord_ne rs domain (toLowerBytes q.Name)
      recordType TYPE_A d (hne q.Name))
    (baseResponse query)
  simp only [createDNSResponse, hcongr]

theorem uppercase_record_unreachable_witness :
    createDNSResponse
        (AddRecord NewRecordStore (strBytes "Secret.Example.COM") 1 [9, 9, 9, 9])
        queryA =
      createDNSResponse NewRecordStore queryA :=
  uppercase_record_unreachable NewRecordStore (strBytes "Secret.Example.COM")
    1 [9, 9, 9, 9] queryA (by decide)

/-- Labels longer than 63 bytes contribute nothing: the encoder's
per-label `if` equals filtering them out. -/
theorem flatten_drop_long (ls : List (List Nat)) :
    ((ls.map fun l => if l.length > 63 then [] else l.length :: l).flatten) =
      (((ls.filter fun l => l.length ≤ 63).map fun l => l.length :: l).flatten) := by
  induction ls with
  | nil => rfl
  | cons l t ih =>
    by_cases h : l.length > 63
    · have h2 : ¬l.length ≤ 63 := by omega
      simp [List.filter_cons, h, h2, ih]
    · have h2 : l.length ≤ 63 := by omega
      simp [List.filter_cons, h, h2, ih]

/-- C7: `EncodeDomainName` maps the empty name to the single byte `0`,
always ends its output with a zero byte, and on a name assembled from
dot-free labels emits exactly the labels of length at most 63, in
order, as length-prefixed blocks — dropping (not truncating) every
longer label — followed by the zero terminator. -/
theorem encode_name_spec :
    EncodeDomainName [] = [0] ∧
    (∀ name, (EncodeDomainName name).getLast? = some 0) ∧
    (∀ ls : List (List Nat), (∀ l ∈ ls, ¬46 ∈ l) →
      List.intercalate [46] ls ≠ [] →
      EncodeDomainName (List.intercalate [46] ls) =
        (((ls.filter fun l => l.length ≤ 63).map fun l => l.length :: l).flatten)
          ++ [0]) := by
  refine ⟨rfl, fun name => ?_, fun ls hdot hne => ?_⟩
  · unfold EncodeDomainName
    by_cases hn : name = []
    · rw [if_pos hn]
      rfl
    · rw [if_neg hn]
      exact List.getLast?_concat _
  · have hls : ls ≠ [] := by
      rintro rfl
      exact hne rfl
    unfold EncodeDomainName
    rw [if_neg hne, List.splitOn_intercalate ls 46 hdot hls, flatten_drop_long]

theorem encode_name_spec_witness :
    EncodeDomainName
        (List.intercalate [46] [strBytes "www", List.replicate 70 97, strBytes "com"]) =
      ((([strBytes "www", List.replicate 70 97, strBytes "com"].filter
          fun l => l.length ≤ 63).map fun l => l.length :: l).flatten) ++ [0] :=
  encode_name_spec.2.2 [strBytes "www", List.replicate 70 97, strBytes "com"]
    (by decide) (by decide)

/-- Indexing past a prefix reads from the suffix. -/
theorem getD_append_add (pre l : List Nat) (i : Nat) :
    (pre ++ l).getD (pre.length + i) 0 = l.getD i 0 := by
  induction pre with
  | nil => simp
  | cons a t ih =>
    have h : t.length + 1 + i = t.length + i + 1 := by omega
    simp only [List.cons_append, List.length_cons, h, List.getD_cons_succ]
    exact ih

/-- Reading exactly at the end of a prefix yields the next element. -/
theorem getD_append_head (pre : List Nat) (x : Nat) (t : List Nat) :
    (pre ++ x :: t).getD pre.length 0 = x := by
  have h := getD_append_add pre (x :: t) 0
  simpa using h

theorem labelBlocks_cons (l : List Nat) (ls : List (List Nat)) :
    labelBlocks (l :: ls) = l.length :: (l ++ labelBlocks ls) := by
  simp [labelBlocks]

/-- A zero length byte ends the name at once. -/
theorem parseLabels_zero_byte (data : List Nat) (fuel offset : Nat)
    (h : offset < data.length) (h0 : data.getD offset 0 = 0) :
    parseLabels data (fuel + 1) offset = some (.ok ([], offset + 1)) := by
  unfold parseLabels
  rw [if_neg (by omega)]
  simp only [h0]
  rw [if_pos trivial]

/-- A literal label byte (1–63, within bounds) consumes the label and
continues at the next block. -/
theorem parseLabels_label_byte (data : List Nat) (fuel offset n : Nat)
    (h : offset < data.length) (hn : data.getD offset 0 = n)
    (h1 : 1 ≤ n) (h63 : n ≤ 63)
    (hov : ¬data.length < offset + n + 1) :
    parseLabels data (fuel + 1) offset =
      match parseLabels data fuel (offset + n + 1) with
      | none => none
      | some (.error e) => some (.error e)
      | some (.ok (rest, fin)) =>
        some (.ok ((data.drop (offset + 1)).take n :: rest, fin)) := by
  have hptr : ¬(n &&& 0xC0 = 0xC0) := by
    have hle : n &&& 0xC0 ≤ n := Nat.and_le_left
    omega
  conv_lhs => unfold parseLabels
  rw [if_neg (by omega)]
  simp only [hn]
  rw [if_neg (by omega : ¬n = 0), if_neg hptr, if_neg hov]

/-- Parsing at the start of an encoded block of well-formed labels
recovers exactly those labels and stops just past the terminator. -/
theorem parseLabels_append (ls : List (List Nat)) :
    ∀ (fuel : Nat) (pre post : List Nat),
      ls.length < fuel →
      (∀ l ∈ ls, 1 ≤ l.length ∧ l.length ≤ 63) →
      parseLabels (pre ++ labelBlocks ls ++ 0 :: post) fuel pre.length =
        some (.ok (ls, pre.length + (labelBlocks ls).length + 1)) := by
  induction ls with
  | nil =>
    intro fuel pre post hf _
    cases fuel with
    | zero => omega
    | succ f =>
      have e : pre ++ labelBlocks [] ++ 0 :: post = pre ++ 0 :: post := by
        simp [labelBlocks]
      rw [e, parseLabels_zero_byte (pre ++ 0 :: post) f pre.length
        (by simp) (getD_append_head pre 0 post)]
      simp [labelBlocks]
  | cons l ls ih =>
    intro fuel pre post hf hwf
    cases fuel with
    | zero => omega
    | succ f =>
      obtain ⟨hl1, hl63⟩ := hwf l (List.mem_cons_self l ls)
      have hwf' : ∀ p ∈ ls, 1 ≤ p.length ∧ p.length ≤ 63 :=
        fun p hp => hwf p (List.mem_cons_of_mem _ hp)
      have e : pre ++ labelBlocks (l :: ls) ++ 0 :: post =
          pre ++ l.length :: (l ++ (labelBlocks ls ++ 0 :: post)) := by
        simp [labelBlocks_cons]
      rw [e]
      have hlenD : (pre ++ l.length :: (l ++ (labelBlocks ls ++ 0 :: post))).length =
          pre.length + 1 + l.length + (labelBlocks ls).length + 1 + post.length := by
        simp only [List.length_append, List.length_cons]
        omega
      have hstep := parseLabels_label_byte
        (pre ++ l.length :: (l ++ (labelBlocks ls ++ 0 :: post)))
        f pre.length l.length (by omega)
        (getD_append_head pre l.length _) hl1 hl63 (by omega)
      rw [hstep]
      have hrec := ih f (pre ++ l.length :: l) post
        (by simp only [List.length_cons] at hf; omega) hwf'
      rw [show (pre ++ l.length :: l) ++ labelBlocks ls ++ 0 :: post =
            pre ++ l.length :: (l ++ (labelBlocks ls ++ 0 :: post)) from by simp,
          show (pre ++ l.length :: l).length = pre.length + l.length + 1 from by
            simp only [List.length_append, List.length_cons]; omega] at hrec
      rw [hrec]
      have hlab : ((pre ++ l.length :: (l ++ (labelBlocks ls ++ 0 :: post))).drop
          (pre.length + 1)).take l.length = l := by
        rw [show pre ++ l.length :: (l ++ (labelBlocks ls ++ 0 :: post)) =
              (pre ++ [l.length]) ++ (l ++ (labelBlocks ls ++ 0 :: post)) from by simp,
            show pre.length + 1 = (pre ++ [l.length]).length from by simp,
            List.drop_left, List.take_left]
      rw [hlab]
      have hfin : pre.length + l.length + 1 + (labelBlocks ls).length + 1 =
          pre.length + (labelBlocks (l :: ls)).length + 1 := by
        simp only [labelBlocks_cons, List.length_cons, List.length_append]
        omega
      rw [hfin]

/-- `splitOn` never returns the empty list of labels. -/
theorem splitOn_dot_ne_nil (name : List Nat) : name.splitOn 46 ≠ [] := by
  simp only [List.splitOn]
  exact List.splitOnP_ne_nil _ name

/-- On a well-formed name the encoder drops nothing: its output is the
label blocks followed by the terminator. -/
theorem EncodeDomainName_wf (name : List Nat) (h : wellFormedName name) :
    EncodeDomainName name = labelBlocks (name.splitOn 46) ++ [0] := by
  have hne : name ≠ [] := by
    rintro rfl
    have hmem : ([] : List Nat) ∈ ([] : List Nat).splitOn 46 := by
      simp
    have := h [] hmem
    simp at this
  unfold EncodeDomainName labelBlocks
  rw [if_neg hne]
  congr 2
  apply List.map_congr_left
  intro l hl
  rw [if_neg]
  have := h l hl
  omega

/-- Decoding an encoded well-formed name (at any position, with any
suffix) returns exactly that name and lands just past its bytes. -/
theorem parseDomainName_append (name pre post : List Nat) (fuel : Nat)
    (hf : (name.splitOn 46).length < fuel) (h : wellFormedName name) :
    parseDomainName fuel (pre ++ EncodeDomainName name ++ post) pre.length =
      some (.ok (name, pre.length + (EncodeDomainName name).length)) := by
  have henc := EncodeDomainName_wf name h
  have e : pre ++ EncodeDomainName name ++ post =
      pre ++ labelBlocks (name.splitOn 46) ++ 0 :: post := by
    rw [henc]
    simp
  unfold parseDomainName
  rw [e, parseLabels_append (name.splitOn 46) fuel pre post hf h]
  have hne := splitOn_dot_ne_nil name
  simp only [if_neg hne]
  rw [List.intercalate_splitOn name 46]
  have hlen : (EncodeDomainName name).length = (labelBlocks (name.splitOn 46)).length + 1 := by
    rw [henc]
    simp
  rw [hlen, Nat.add_assoc]

/-- Reading two big-endian bytes back gives the encoded 16-bit value. -/
theorem readU16_u16bytes (P : List Nat) (n : Nat) (rest : List Nat)
    (hn : n < 2 ^ 16) :
    readU16 (P ++ u16bytes n ++ rest) P.length = n := by
  unfold readU16 u16bytes
  have h1 : (P ++ [n / 256 % 256, n % 256] ++ rest).getD P.length 0 =
      n / 256 % 256 := by
    rw [List.append_assoc]
    exact getD_append_head P _ _
  have h2 : (P ++ [n / 256 % 256, n % 256] ++ rest).getD (P.length + 1) 0 =
      n % 256 := by
    rw [show P ++ [n / 256 % 256, n % 256] ++ rest =
          (P ++ [n / 256 % 256]) ++ (n % 256) :: rest from by simp,
        show P.length + 1 = (P ++ [n / 256 % 256]).length from by simp]
    exact getD_append_head _ _ _
  rw [h1, h2]
  omega

/-- Decoding an encoded question (at any position, with any suffix)
returns exactly that question. -/
theorem parseQuestions_append (q : DNSQuestion) (pre post : List Nat) (fuel : Nat)
    (hf : (q.Name.splitOn 46).length < fuel) (h : wellFormedName q.Name)
    (ht : q.qtype < 2 ^ 16) (hc : q.qclass < 2 ^ 16) :
    parseQuestions fuel (pre ++ encodeQuestion q ++ post) pre.length =
      some (.ok (q, pre.length + (encodeQuestion q).length)) := by
  obtain ⟨nm, ty, cl⟩ := q
  simp only at hf h ht hc
  have e : pre ++ encodeQuestion ⟨nm, ty, cl⟩ ++ post =
      pre ++ EncodeDomainName nm ++ (u16bytes ty ++ (u16bytes cl ++ post)) := by
    simp [encodeQuestion]
  unfold parseQuestions
  rw [e, parseDomainName_append nm pre (u16bytes ty ++ (u16bytes cl ++ post)) fuel hf h]
  have hPlen : pre.length + (EncodeDomainName nm).length =
      (pre ++ EncodeDomainName nm).length := by
    simp
  have hty : readU16 (pre ++ EncodeDomainName nm ++ (u16bytes ty ++ (u16bytes cl ++ post)))
      (pre.length + (EncodeDomainName nm).length) = ty := by
    rw [hPlen, show pre ++ EncodeDomainName nm ++ (u16bytes ty ++ (u16bytes cl ++ post)) =
          (pre ++ EncodeDomainName nm) ++ u16bytes ty ++ (u16bytes cl ++ post) from by simp]
    exact readU16_u16bytes _ ty _ ht
  have hcl : readU16 (pre ++ EncodeDomainName nm ++ (u16bytes ty ++ (u16bytes cl ++ post)))
      (pre.length + (EncodeDomainName nm).length + 2) = cl := by
    rw [show pre.length + (EncodeDomainName nm).length + 2 =
          (pre ++ EncodeDomainName nm ++ u16bytes ty).length from by
            simp [u16bytes]; omega,
        show pre ++ EncodeDomainName nm ++ (u16bytes ty ++ (u16bytes cl ++ post)) =
          (pre ++ EncodeDomainName nm ++ u16bytes ty) ++ u16bytes cl ++ post from by simp]
    exact readU16_u16bytes _ cl _ hc
  have hnov : ¬((pre ++ EncodeDomainName nm ++ (u16bytes ty ++ (u16bytes cl ++ post))).length <
      pre.length + (EncodeDomainName nm).length + 4) := by
    simp only [List.length_append, u16bytes, List.length_cons, List.length_nil]
    omega
  simp only [hty, hcl]
  rw [if_neg hnov]
  have hfin : pre.length + (EncodeDomainName nm).length + 4 =
      pre.length + (encodeQuestion ⟨nm, ty, cl⟩).length := by
    simp only [encodeQuestion, List.length_append, u16bytes, List.length_cons,
      List.length_nil]
    omega
  rw [hfin]

/-- Decoding the concatenated encodings of a list of well-formed
questions recovers exactly that list. -/
theorem parseQuestionLoop_append (qs : List DNSQuestion) :
    ∀ (fuel : Nat) (pre post : List Nat),
      (∀ q ∈ qs, (q.Name.splitOn 46).length < fuel ∧ wellFormedName q.Name ∧
        q.qtype < 2 ^ 16 ∧ q.qclass < 2 ^ 16) →
      parseQuestionLoop fuel (pre ++ (qs.map encodeQuestion).flatten ++ post)
        qs.length pre.length =
        some (.ok (qs, pre.length + (qs.map encodeQuestion).flatten.length)) := by
  induction qs with
  | nil =>
    intro fuel pre post _
    simp [parseQuestionLoop]
  | cons q qs ih =>
    intro fuel pre post h
    obtain ⟨hfq, hwq, htq, hcq⟩ := h q (List.mem_cons_self q qs)
    have h' := fun p hp => h p (List.mem_cons_of_mem _ hp)
    have e : pre ++ ((q :: qs).map encodeQuestion).flatten ++ post =
        pre ++ encodeQuestion q ++ ((qs.map encodeQuestion).flatten ++ post) := by
      simp
    simp only [List.length_cons]
    unfold parseQuestionLoop
    rw [e, parseQuestions_append q pre _ fuel hfq hwq htq hcq]
    dsimp only
    have hrec := ih fuel (pre ++ encodeQuestion q) post h'
    rw [show (pre ++ encodeQuestion q) ++ (qs.map encodeQuestion).flatten ++ post =
          pre ++ encodeQuestion q ++ ((qs.map encodeQuestion).flatten ++ post) from by
          simp,
        show (pre ++ encodeQuestion q).length =
          pre.length + (encodeQuestion q).length from by simp] at hrec
    rw [hrec]
    have hfin : pre.length + (encodeQuestion q).length +
        (qs.map encodeQuestion).flatten.length =
        pre.length + ((q :: qs).map encodeQuestion).flatten.length := by
      simp only [List.map_cons, List.flatten_cons, List.length_append]
      omega
    rw [hfin]

theorem readU16_u16bytes_at (P : List Nat) (n i : Nat) (rest : List Nat)
    (hn : n < 2 ^ 16) (hi : i = P.length) :
    readU16 (P ++ u16bytes n ++ rest) i = n := by
  subst hi
  exact readU16_u16bytes P n rest hn

/-- C2 (amended): decoding the encoding of any well-formed message
succeeds and reproduces its six header fields and its question list
exactly; the decoded answer list is always empty, because the decoder
never parses answer sections.  Hence `decode (encode m) = m` on all
three components exactly when `m` carries no answers.  `fuel` is the
embedding's step bound; any value above the per-name label count
works. -/
theorem encode_decode (m : DNSMessage) (fuel : Nat)
    (hm : wellFormedMessage m)
    (hf : ∀ q ∈ m.Questions, (q.Name.splitOn 46).length < fuel) :
    ParseDNSMessage fuel (EncodeDNSMessage m) =
      some (.ok { Header := m.Header, Questions := m.Questions, Answers := [] }) := by
  obtain ⟨⟨ID, Fl, QD, AN, NS, AR⟩, qs, ans⟩ := m
  obtain ⟨hID, hFl, hQD, hAN, hNS, hAR, hqlen, halen, hqs, hans⟩ := hm
  simp only at hID hFl hQD hAN hNS hAR hqs hf
  have hQDlt : QD < 2 ^ 16 := by rw [hQD]; exact hqlen
  have hANlt : AN < 2 ^ 16 := by rw [hAN]; exact halen
  have hB : EncodeDNSMessage ⟨⟨ID, Fl, QD, AN, NS, AR⟩, qs, ans⟩ =
      (u16bytes ID ++ u16bytes Fl ++ u16bytes QD ++ u16bytes AN ++
        u16bytes NS ++ u16bytes AR) ++ (qs.map encodeQuestion).flatten ++
        (ans.map encodeAnswer).flatten := by
    simp [EncodeDNSMessage]
  have hp12 : (u16bytes ID ++ u16bytes Fl ++ u16bytes QD ++ u16bytes AN ++
      u16bytes NS ++ u16bytes AR).length = 12 := by
    simp [u16bytes]
  have r0 : readU16 ((u16bytes ID ++ u16bytes Fl ++ u16bytes QD ++ u16bytes AN ++
      u16bytes NS ++ u16bytes AR) ++ (qs.map encodeQuestion).flatten ++
      (ans.map encodeAnswer).flatten) 0 = ID := by
    rw [show (u16bytes ID ++ u16bytes Fl ++ u16bytes QD ++ u16bytes AN ++
          u16bytes NS ++ u16bytes AR) ++ (qs.map encodeQuestion).flatten ++
          (ans.map encodeAnswer).flatten =
        ([] : List Nat) ++ u16bytes ID ++ (u16bytes Fl ++ u16bytes QD ++ u16bytes AN ++
          u16bytes NS ++ u16bytes AR ++ (qs.map encodeQuestion).flatten ++
          (ans.map encodeAnswer).flatten) from by simp]
    exact readU16_u16bytes_at [] ID 0 _ hID rfl
  have r2 : readU16 ((u16bytes ID ++ u16bytes Fl ++ u16bytes QD ++ u16bytes AN ++
      u16bytes NS ++ u16bytes AR) ++ (qs.map encodeQuestion).flatten ++
      (ans.map encodeAnswer).flatten) 2 = Fl := by
    rw [show (u16bytes ID ++ u16bytes Fl ++ u16bytes QD ++ u16bytes AN ++
          u16bytes NS ++ u16bytes AR) ++ (qs.map encodeQuestion).flatten ++
          (ans.map encodeAnswer).flatten =
        u16bytes ID ++ u16bytes Fl ++ (u16bytes QD ++ u16bytes AN ++
          u16bytes NS ++ u16bytes AR ++ (qs.map encodeQuestion).flatten ++
          (ans.map encodeAnswer).flatten) from by simp]
    exact readU16_u16bytes_at (u16bytes ID) Fl 2 _ hFl (by simp [u16bytes])
  have r4 : readU16 ((u16bytes ID ++ u16bytes Fl ++ u16bytes QD ++ u16bytes AN ++
      u16bytes NS ++ u16bytes AR) ++ (qs.map encodeQuestion).flatten ++
      (ans.map encodeAnswer).flatten) 4 = QD := by
    rw [show (u16bytes ID ++ u16bytes Fl ++ u16bytes QD ++ u16bytes AN ++
          u16bytes NS ++ u16bytes AR) ++ (qs.map encodeQuestion).flatten ++
          (ans.map encodeAnswer).flatten =
        (u16bytes ID ++ u16bytes Fl) ++ u16bytes QD ++ (u16bytes AN ++
          u16bytes NS ++ u16bytes AR ++ (qs.map encodeQuestion).flatten ++
          (ans.map encodeAnswer).flatten) from by simp]
    exact readU16_u16bytes_at (u16bytes ID ++ u16bytes Fl) QD 4 _ hQDlt (by simp [u16bytes])
  have r6 : readU16 ((u16bytes ID ++ u16bytes Fl ++ u16bytes QD ++ u16bytes AN ++
      u16bytes NS ++ u16bytes AR) ++ (qs.map encodeQuestion).flatten ++
      (ans.map encodeAnswer).flatten) 6 = AN := by
    rw [show (u16bytes ID ++ u16bytes Fl ++ u16bytes QD ++ u16bytes AN ++
          u16bytes NS ++ u16bytes AR) ++ (qs.map encodeQuestion).flatten ++
          (ans.map encodeAnswer).flatten =
        (u16bytes ID ++ u16bytes Fl ++ u16bytes QD) ++ u16bytes AN ++ (u16bytes NS ++
          u16bytes AR ++ (qs.map encodeQuestion).flatten ++
          (ans.map encodeAnswer).flatten) from by simp]
    exact readU16_u16bytes_at (u16bytes ID ++ u16bytes Fl ++ u16bytes QD) AN 6 _
      hANlt (by simp [u16bytes])
  have r8 : readU16 ((u16bytes ID ++ u16bytes Fl ++ u16bytes QD ++ u16bytes AN ++
      u16bytes NS ++ u16bytes AR) ++ (qs.map encodeQuestion).flatten ++
      (ans.map encodeAnswer).flatten) 8 = NS := by
    rw [show (u16bytes ID ++ u16bytes Fl ++ u16bytes QD ++ u16bytes AN ++
          u16bytes NS ++ u16bytes AR) ++ (qs.map encodeQuestion).flatten ++
          (ans.map encodeAnswer).flatten =
        (u16bytes ID ++ u16bytes Fl ++ u16bytes QD ++ u16bytes AN) ++ u16bytes NS ++
          (u16bytes AR ++ (qs.map encodeQuestion).flatten ++
          (ans.map encodeAnswer).flatten) from by simp]
    exact readU16_u16bytes_at (u16bytes ID ++ u16bytes Fl ++ u16bytes QD ++ u16bytes AN)
      NS 8 _ hNS (by simp [u16bytes])
  have r10 : readU16 ((u16bytes ID ++ u16bytes Fl ++ u16bytes QD ++ u16bytes AN ++
      u16bytes NS ++ u16bytes AR) ++ (qs.map encodeQuestion).flatten ++
      (ans.map encodeAnswer).flatten) 10 = AR := by
    rw [show (u16bytes ID ++ u16bytes Fl ++ u16bytes QD ++ u16bytes AN ++
          u16bytes NS ++ u16bytes AR) ++ (qs.map encodeQuestion).flatten ++
          (ans.map encodeAnswer).flatten =
        (u16bytes ID ++ u16bytes Fl ++ u16bytes QD ++ u16bytes AN ++ u16bytes NS) ++
          u16bytes AR ++ ((qs.map encodeQuestion).flatten ++
          (ans.map encodeAnswer).flatten) from by simp]
    exact readU16_u16bytes_at
      (u16bytes ID ++ u16bytes Fl ++ u16bytes QD ++ u16bytes AN ++ u16bytes NS)
      AR 10 _ hAR (by simp [u16bytes])
  have hloop := parseQuestionLoop_append qs fuel
    (u16bytes ID ++ u16bytes Fl ++ u16bytes QD ++ u16bytes AN ++
      u16bytes NS ++ u16bytes AR)
    ((ans.map encodeAnswer).flatten)
    (fun q hq => ⟨hf q hq, (hqs q hq).1, (hqs q hq).2.1, (hqs q hq).2.2⟩)
  rw [hp12] at hloop
  unfold ParseDNSMessage MIN_MESSAGE_SIZE
  rw [hB]
  rw [if_neg (by
    rw [List.length_append, List.length_append, hp12]
    omega)]
  simp only [r0, r2, r4, r6, r8, r10]
  rw [hQD] at hloop ⊢
  rw [hloop]

theorem encode_decode_witness :
    ParseDNSMessage 20 (EncodeDNSMessage queryA) =
      some (.ok { Header := queryA.Header, Questions := queryA.Questions,
                  Answers := [] }) :=
  encode_decode queryA 20 (by decide) (by decide)
